import Mathlib

/-!
Verification of the Merkle sum tree core of this repository
(`src/sum-tree/sum-tree.js`, `src/sum-tree/plasma-sum-tree.js`,
serialization models) against its natural-language specification.

The hash primitive is opaque in the source (web3 soliditySha3, 32-byte
output).  Following the specification's collision-resistance assumption we
model digests as a free inductive type: `Digest.leafH` is the hash of a
leaf payload, `Digest.nodeH` the hash of the concatenation of the two
48-byte child records (each record being the fixed-width digest and sum of
a child, which is exactly the byte string `left.data + right.data` the
source feeds to the hash).  Big numbers (bn.js) are modelled as `Int`
(sums, which can be negative through subtraction) and `Nat` (coin ids).
JavaScript `undefined` flowing through a computation is modelled with
`Option`; a thrown `TypeError` makes the embedded function return `none`.
-/

set_option maxRecDepth 4000

namespace PlasmaUtils

/-- Modelled from the spec: `src/constants.js` is not under `src/`.
Spec §6: `MIN_COIN_ID` is 0. -/
def MIN_COIN_ID : Int := 0

/-- Modelled from the spec: `src/constants.js` is not under `src/`.
Spec §6: `MAX_COIN_ID` is the maximum representable coordinate,
`2^128 - 1` (the construction tests expect the 16-byte sum
`ffffffffffffffffffffffffffffffff` at the root). -/
def MAX_COIN_ID : Int := 2 ^ 128 - 1

/-- Digests, modelled as a free (collision-free) hash following the spec's
opaque collision-resistant hash assumption.  `zero` is the designated
all-zero 32-byte sentinel digest; `leafH e` is `H('0x' + e)` for an encoded
transaction payload `e`; `nodeH ld ls rd rs` is `H('0x' + left.data +
right.data)` where each child's `data` is its 32-byte digest followed by
its 16-byte sum (spec §6 wire format, confirmed by the construction tests
in `test/sum-tree/test-plasma-sum-tree.js`). -/
inductive Digest where
  | zero : Digest
  | leafH : String → Digest
  | nodeH : Digest → Int → Digest → Int → Digest
deriving DecidableEq, Repr

/-- Modelled from the spec: `src/sum-tree/merkle-tree-node.js` is not under
`src/`.  Spec §3: a node is an immutable pair of a 32-byte digest and a
sum; its `data` is the 48-byte record digest‖sum (spec §6), which the
fixed widths make interconvertible with the pair itself, so the node value
stands for its own `data` string. -/
structure MerkleTreeNode where
  digest : Digest
  sum : Int
deriving DecidableEq, Repr

instance : Inhabited MerkleTreeNode := ⟨⟨Digest.zero, 0⟩⟩

/-- `emptyLeaf` from `sum-tree.js`: the all-zero digest with sum 0. -/
def emptyLeaf : MerkleTreeNode := ⟨Digest.zero, 0⟩

/-- `parent` from `sum-tree.js`: hash of the concatenation of the two
children's 48-byte `data` records, sum of the two sums. -/
def parent (left right : MerkleTreeNode) : MerkleTreeNode :=
  ⟨Digest.nodeH left.digest left.sum right.digest right.sum, left.sum + right.sum⟩

/-- A transfer as decoded inside a transaction (`start`, `end` coin ids;
sender/recipient/token play no role in the sum-tree code). -/
structure Transfer where
  start : Nat
  «end» : Nat
deriving DecidableEq, Repr

instance : Inhabited Transfer := ⟨⟨0, 0⟩⟩

/-- A transaction: its decoded transfers and its canonical encoded payload
(opaque byte string, spec §6). -/
structure Transaction where
  transfers : List Transfer
  encoded : String
deriving DecidableEq, Repr

instance : Inhabited Transaction := ⟨⟨[], ""⟩⟩

/-- The intermediate per-transfer records built by the `reduce` in
`PlasmaMerkleSumTree.parseLeaves`: start, end and the owning transaction's
encoded payload. -/
structure PTransfer where
  start : Nat
  «end» : Nat
  encoded : String
deriving DecidableEq, Repr

instance : Inhabited PTransfer := ⟨⟨0, 0, ""⟩⟩

/-- Bit length of a natural number (fuel-based so that it evaluates by
kernel reduction; 200 covers every number below `2^200`). -/
def bitLenAux : Nat → Nat → Nat
  | 0, _ => 0
  | fuel + 1, n => if n = 0 then 0 else bitLenAux fuel (n / 2) + 1

def bitLen (n : Nat) : Nat := bitLenAux 200 n

/-- Rounding of a natural number to the nearest IEEE-754 double
(53 significant bits, ties to even).  The source's sort comparator
`(a, b) => a.start - b.start` applies JavaScript number coercion to the
bn.js big numbers (`ToPrimitive` → decimal string → `ToNumber`), so the
comparator compares exactly these rounded values. -/
def rnd53 (n : Nat) : Nat :=
  if n < 2 ^ 53 then n
  else
    let k := bitLen n - 53
    let q := n / 2 ^ k
    let r := n % 2 ^ k
    let half := 2 ^ (k - 1)
    let q2 := if half < r ∨ (r = half ∧ q % 2 = 1) then q + 1 else q
    q2 * 2 ^ k

/-- The sort key the comparator effectively orders by. -/
def sortKey (t : PTransfer) : Nat := rnd53 t.start

/-- Stable insertion used to model `Array.prototype.sort` (stable per
ECMAScript) with the source's comparator: a new element goes after every
already-placed element whose key is less than or equal to its own. -/
def insertByKey (x : PTransfer) : List PTransfer → List PTransfer
  | [] => [x]
  | y :: ys => if sortKey y ≤ sortKey x then y :: insertByKey x ys else x :: y :: ys

/-- The `.sort((a, b) => a.start - b.start)` call in `parseLeaves`. -/
def jsSortByStart (l : List PTransfer) : List PTransfer :=
  l.foldl (fun acc x => insertByKey x acc) []

/-- The `reduce` in `parseLeaves`: one record per transfer, in transaction
order, carrying the owning transaction's encoded payload. -/
def parsedTransfers (txs : List Transaction) : List PTransfer :=
  txs.flatMap fun tx => tx.transfers.map fun tr => ⟨tr.start, tr.«end», tx.encoded⟩

/-- The parsed-and-sorted transfer list `parseLeaves` builds its leaves
from. -/
def sortedTransfers (txs : List Transaction) : List PTransfer :=
  jsSortByStart (parsedTransfers txs)

/-- The `for (let i = 1; i < leaves.length - 1; i++)` loop of
`parseLeaves`: one node per interior position `i = j + 1`, with digest the
hash of the leaf's payload and sum `leaves[i+1].start - leaves[i].start`. -/
def interiorNodes (ls : List PTransfer) : List MerkleTreeNode :=
  (List.range (ls.length - 2)).map fun j =>
    MerkleTreeNode.mk (Digest.leafH (ls.getD (j + 1) default).encoded)
      (((ls.getD (j + 2) default).start : Int) - (ls.getD (j + 1) default).start)

/-- `PlasmaMerkleSumTree.parseLeaves`, acting on the sorted transfer list.
Exactly one leaf: sum `MAX_COIN_ID`.  More than one: interior leaf `i` has
sum `leaves[i+1].start - leaves[i].start`, the first leaf
`leaves[1].start - MIN_COIN_ID`, the last
`MAX_COIN_ID - leaves[n-1].start`.  On an empty list the source throws
(`leaves[1]` is `undefined`), hence `none`. -/
def parseLeaves (ls : List PTransfer) : Option (List MerkleTreeNode) :=
  if ls.length = 1 then
    some [⟨Digest.leafH (ls.getD 0 default).encoded, MAX_COIN_ID⟩]
  else
    match ls with
    | [] => none
    | [_] => none    -- unreachable: the branch above took `ls.length = 1`
    | l0 :: l1 :: _ =>
      let first := MerkleTreeNode.mk (Digest.leafH l0.encoded) ((l1.start : Int) - MIN_COIN_ID)
      let llast := ls.getD (ls.length - 1) default
      let lastNode := MerkleTreeNode.mk (Digest.leafH llast.encoded) (MAX_COIN_ID - llast.start)
      some (first :: (interiorNodes ls ++ [lastNode]))

/-- One pairing pass of `generate` in `sum-tree.js`: consecutive children
are combined, a final unpaired child is right-padded with `emptyLeaf`. -/
def pairUp : List MerkleTreeNode → List MerkleTreeNode
  | [] => []
  | [l] => [parent l emptyLeaf]
  | l :: r :: rest => parent l r :: pairUp rest

/-- `generate` in `sum-tree.js`, fuel-based (the level length strictly
shrinks, so fuel `children.length` always suffices): the list of levels
from the given bottom level up to the single root node. -/
def generateLevels : Nat → List MerkleTreeNode → List (List MerkleTreeNode)
  | 0, children => [children]
  | fuel + 1, children =>
    if children.length ≤ 1 then [children]
    else children :: generateLevels fuel (pairUp children)

/-- `this.generate(bottom, [bottom])` as called by the constructor. -/
def generate (children : List MerkleTreeNode) : List (List MerkleTreeNode) :=
  generateLevels children.length children

structure MerkleSumTree where
  leaves : List Transaction
  levels : List (List MerkleTreeNode)
deriving DecidableEq, Repr

/-- The `PlasmaMerkleSumTree` constructor.  `none` models calling it with
no argument (`!leaves` true): empty leaf list and the single empty level.
With a transaction list the bottom level is `parseLeaves` of the sorted
transfer records; if that throws (no transfers at all) construction
fails. -/
def mkPlasmaTree : Option (List Transaction) → Option MerkleSumTree
  | none => some ⟨[], [[]]⟩
  | some txs =>
    (parseLeaves (sortedTransfers txs)).map fun bottom => ⟨txs, generate bottom⟩

/-- `root()`: `levels[levels.length - 1][0]`, which is `undefined` (here
`none`) for the empty tree. -/
def root (t : MerkleSumTree) : Option MerkleTreeNode :=
  (t.levels.getD (t.levels.length - 1) []).get? 0

/-- `index + (index % 2 === 0 ? 1 : -1)`: the sibling position of a
position. -/
def sibOf (p : Nat) : Nat := if p % 2 = 0 then p + 1 else p - 1

/-- The sibling-collecting loop shared by `getInclusionProof` and
`getTransferProof`, iterating over levels `0 .. levels.length - 2` (the
first argument is the number of remaining iterations).  When the sibling
slot exists the node's 48-byte `data` record is pushed; when it does not,
the source sets `node` to the *string* `PlasmaMerkleSumTree.emptyLeaf().data`
and then pushes `node.data`, which on a string is `undefined` — modelled as
`none`.  The next sibling position is
`(siblingIndex === 0 ? 0 : floor(siblingIndex / 2))` xor 1. -/
def branchGo (levels : List (List MerkleTreeNode)) :
    Nat → Nat → Nat → List (Option MerkleTreeNode)
  | 0, _, _ => []
  | k + 1, i, s =>
    (levels.getD i []).get? s :: branchGo levels k (i + 1) (sibOf (s / 2))

/-- The stubbed fixed signature placed into every transfer proof
(signatures are opaque strings here). -/
def stubSignature : String :=
  "1bd693b532a80fed6392b428604171fb32fdbf953728a3a7ecc7d4062b1652c04224e9c602ac800b983b035700a14b23f78a253ab762deab5dc27e3555a750b354"

/-- A `TransferProof` model object: `parsedSum`, `leafIndex`, the sibling
sequence (each entry a 48-byte node record, or `none` for a JavaScript
`undefined` entry), and the signature. -/
structure TransferProof where
  parsedSum : Int
  leafIndex : Nat
  inclusionProof : List (Option MerkleTreeNode)
  signature : String
deriving DecidableEq, Repr

instance : Inhabited TransferProof := ⟨⟨0, 0, [], ""⟩⟩

/-- A `TransactionProof` model object: the list of transfer proofs. -/
structure TransactionProof where
  transferProofs : List TransferProof
deriving DecidableEq, Repr

/-- `getInclusionProof(index)`: `none` on an out-of-range index
(`index >= levels[0].length || index < 0` throws).  Otherwise the branch:
first the extra record `(zero digest, levels[0][index].sum)`, then one
sibling entry per level below the root. -/
def getInclusionProof (t : MerkleSumTree) (index : Int) :
    Option (List (Option MerkleTreeNode)) :=
  let L0 := t.levels.getD 0 []
  if (L0.length : Int) ≤ index ∨ index < 0 then none
  else
    let idx := index.toNat
    some (some ⟨Digest.zero, ((L0.get? idx).getD default).sum⟩ ::
      branchGo t.levels (t.levels.length - 1) 0 (sibOf idx))

/-- `getTransferProof(leafIndex)`: `none` on an out-of-range index,
otherwise a `TransferProof` packaging `parsedSum = levels[0][leafIndex].sum`,
the index, the sibling branch and the stubbed signature. -/
def getTransferProof (t : MerkleSumTree) (leafIndex : Int) :
    Option TransferProof :=
  let L0 := t.levels.getD 0 []
  if (L0.length : Int) ≤ leafIndex ∨ leafIndex < 0 then none
  else
    let idx := leafIndex.toNat
    some { parsedSum := ((L0.get? idx).getD default).sum
           leafIndex := idx
           inclusionProof := branchGo t.levels (t.levels.length - 1) 0 (sibOf idx)
           signature := stubSignature }

/-- `checkSignature`: the source stub always returns `true`. -/
def checkSignature (_transactionHash : Digest) (_sig : String) : Bool := true

/-- The verification loop of `checkTransferProof`, one iteration per
sibling record, bottom to top.  `path[i]` is bit `i` of `leafIndex`
(binary string padded to the proof length and reversed, so least
significant bit first): on bit 0 the computed node is the left child, on
bit 1 the right child.  The source evaluates `rightSum.add(sibling.sum)`
and `leftSum.add(sibling.sum)` but discards the results (bn.js `add` is
not in-place), so the accumulators it later reads are never updated; the
translation therefore threads them through unchanged.  A `none`
(`undefined`) sibling entry makes the source throw
(`undefined.slice`), modelled as `none`. -/
def checkLoop (leafIndex : Nat) :
    List (Option MerkleTreeNode) → Nat → MerkleTreeNode → Int → Int →
    Option (MerkleTreeNode × Int × Int)
  | [], _, computed, leftSum, rightSum => some (computed, leftSum, rightSum)
  | none :: _, _, _, _, _ => none
  | some sib :: rest, i, computed, leftSum, rightSum =>
    if leafIndex.testBit i = false then
      checkLoop leafIndex rest (i + 1) (parent computed sib) leftSum rightSum
    else
      checkLoop leafIndex rest (i + 1) (parent sib computed) leftSum rightSum

/-- `PlasmaMerkleSumTree.checkTransferProof(transaction, transferIndex,
transferProof, root)`.  Structural errors (an `undefined` sibling record, a
`transferIndex` with no transfer) are `none`; otherwise the boolean
conjunction of the sum-range check and the root comparison (the root
argument is the expected root's 48-byte `data` record). -/
def checkTransferProof (transaction : Transaction) (transferIndex : Nat)
    (transferProof : TransferProof) (root : MerkleTreeNode) : Option Bool :=
  let transactionHash := Digest.leafH transaction.encoded
  if checkSignature transactionHash transferProof.signature = false then
    some false
  else
    match checkLoop transferProof.leafIndex transferProof.inclusionProof 0
        ⟨transactionHash, transferProof.parsedSum⟩ 0 0 with
    | none => none
    | some (computed, leftSum, rightSum) =>
      match transaction.transfers.get? transferIndex with
      | none => none
      | some transfer =>
        let rootSum := computed.sum
        let validSum := decide (leftSum ≤ (transfer.start : Int)) &&
          decide ((transfer.«end» : Int) ≤ rootSum - rightSum)
        let validRoot := decide (computed = root)
        some (validSum && validRoot)

/-- Modelled from the spec: the verification loop as §4.5 step 5 words it,
with the sibling sums actually accumulated (`rightSum += s.sum` on bit 0,
`leftSum += s.sum` on bit 1).  Used only to compare the source's
behaviour with the specified one. -/
def checkLoopSpec (leafIndex : Nat) :
    List (Option MerkleTreeNode) → Nat → MerkleTreeNode → Int → Int →
    Option (MerkleTreeNode × Int × Int)
  | [], _, computed, leftSum, rightSum => some (computed, leftSum, rightSum)
  | none :: _, _, _, _, _ => none
  | some sib :: rest, i, computed, leftSum, rightSum =>
    if leafIndex.testBit i = false then
      checkLoopSpec leafIndex rest (i + 1) (parent computed sib) leftSum
        (rightSum + sib.sum)
    else
      checkLoopSpec leafIndex rest (i + 1) (parent sib computed)
        (leftSum + sib.sum) rightSum

/-- Modelled from the spec: `checkTransferProof` as §4.5 words it, i.e.
the same function but with the accumulating loop. -/
def checkTransferProofSpec (transaction : Transaction) (transferIndex : Nat)
    (transferProof : TransferProof) (root : MerkleTreeNode) : Option Bool :=
  let transactionHash := Digest.leafH transaction.encoded
  if checkSignature transactionHash transferProof.signature = false then
    some false
  else
    match checkLoopSpec transferProof.leafIndex transferProof.inclusionProof 0
        ⟨transactionHash, transferProof.parsedSum⟩ 0 0 with
    | none => none
    | some (computed, leftSum, rightSum) =>
      match transaction.transfers.get? transferIndex with
      | none => none
      | some transfer =>
        let rootSum := computed.sum
        let validSum := decide (leftSum ≤ (transfer.start : Int)) &&
          decide ((transfer.«end» : Int) ≤ rootSum - rightSum)
        let validRoot := decide (computed = root)
        some (validSum && validRoot)

/-- The `every((transferProof, transferIndex) => checkTransferProof(...))`
fold of `checkTransactionProof`: short-circuits on the first `false`, an
exception from a checked element propagates. -/
def checkEvery (transaction : Transaction) (root : MerkleTreeNode) :
    List TransferProof → Nat → Option Bool
  | [], _ => some true
  | tp :: rest, i =>
    match checkTransferProof transaction i tp root with
    | none => none
    | some false => some false
    | some true => checkEvery transaction root rest (i + 1)

/-- `PlasmaMerkleSumTree.checkTransactionProof(transaction,
transactionProof, root)`. -/
def checkTransactionProof (transaction : Transaction)
    (transactionProof : TransactionProof) (root : MerkleTreeNode) :
    Option Bool :=
  checkEvery transaction root transactionProof.transferProofs 0

/-! Helper notions used only to state and prove properties. -/

/-- Total sum carried by a level. -/
def sumOf (l : List MerkleTreeNode) : Int := (l.map (·.sum)).sum

/-- The `start` of the transfer at position `i` of a parsed transfer list,
as a big integer. -/
def startAt (ls : List PTransfer) (i : Nat) : Int :=
  ((ls.getD i default).start : Int)

/-- The topmost level of a level list (`levels[levels.length - 1]`). -/
def lastLevelOf (xs : List (List MerkleTreeNode)) : List MerkleTreeNode :=
  xs.getD (xs.length - 1) []

/-! Concrete inputs used by counterexamples, bug demonstrations and
witnesses. -/

/-- Three single-transfer transactions with the ranges the repository's
own construction tests use (starts 2, 6, 100). -/
def txs3 : List Transaction :=
  [⟨[⟨2, 3⟩], "e0"⟩, ⟨[⟨6, 7⟩], "e1"⟩, ⟨[⟨100, 108⟩], "e2"⟩]

/-- The three-leaf tree built from `txs3` (an odd bottom level, so the
leaf at index 2 has no sibling slot at level 0). -/
def T3 : MerkleSumTree := (mkPlasmaTree (some txs3)).getD ⟨[], [[]]⟩

/-- A single-transfer transaction for direct verifier calls. -/
def txC2 : Transaction := ⟨[⟨2, 3⟩], "aa"⟩

/-- A one-sibling transfer proof whose sibling carries sum 5 on the left
(path bit of leaf index 1 is 1), while the transfer's start is only 2. -/
def prfC2 : TransferProof := ⟨1, 1, [some ⟨Digest.zero, 5⟩], stubSignature⟩

/-- The root that `prfC2` recomputes. -/
def rootC2 : MerkleTreeNode := parent ⟨Digest.zero, 5⟩ ⟨Digest.leafH "aa", 1⟩

/-- Two transactions whose starts, `2^53 + 1` and `2^53`, are distinct big
integers that round to the same IEEE-754 double. -/
def cexTxs : List Transaction :=
  [⟨[⟨2 ^ 53 + 1, 2 ^ 53 + 2⟩], "a"⟩, ⟨[⟨2 ^ 53, 2 ^ 53 + 1⟩], "b"⟩]

/-- A concrete sorted three-transfer list. -/
def ls3w : List PTransfer := [⟨2, 3, "x"⟩, ⟨6, 7, "y"⟩, ⟨100, 108, "z"⟩]

/-- The leaf nodes `parseLeaves` produces from `ls3w`. -/
def parsed3w : List MerkleTreeNode :=
  [⟨Digest.leafH "x", 6⟩, ⟨Digest.leafH "y", 94⟩,
   ⟨Digest.leafH "z", MAX_COIN_ID - 100⟩]

/-- Two single-transfer transactions (starts 2 and 6). -/
def txs2w : List Transaction := [⟨[⟨2, 3⟩], "x"⟩, ⟨[⟨6, 7⟩], "y"⟩]

/-- The two-leaf tree built from `txs2w`. -/
def T2w : MerkleSumTree := (mkPlasmaTree (some txs2w)).getD ⟨[], [[]]⟩

/-- A single single-transfer transaction. -/
def txs1 : List Transaction := [⟨[⟨2, 3⟩], "a"⟩]

/-- The one-leaf tree built from `txs1`. -/
def T1 : MerkleSumTree := (mkPlasmaTree (some txs1)).getD ⟨[], [[]]⟩

/-! ## Structural lemmas about the engine -/

theorem sumOf_cons (x : MerkleTreeNode) (l : List MerkleTreeNode) :
    sumOf (x :: l) = x.sum + sumOf l := by
  simp [sumOf]

theorem sumOf_append (l m : List MerkleTreeNode) :
    sumOf (l ++ m) = sumOf l + sumOf m := by
  simp [sumOf]

/-- Each pairing pass halves the node count, rounding up. -/
theorem pairUp_length : ∀ c : List MerkleTreeNode,
    (pairUp c).length = (c.length + 1) / 2
  | [] => by simp [pairUp]
  | [_] => by simp [pairUp]
  | _ :: _ :: rest => by simp [pairUp, pairUp_length rest]; omega

theorem pairUp_ne_nil : ∀ c : List MerkleTreeNode, c ≠ [] → pairUp c ≠ []
  | [], h => absurd rfl h
  | [_], _ => by simp [pairUp]
  | _ :: _ :: _, _ => by simp [pairUp]

/-- A pairing pass preserves the total sum: each parent carries the sum of
its two children and the padding sentinel carries 0. -/
theorem pairUp_sum : ∀ c : List MerkleTreeNode, sumOf (pairUp c) = sumOf c
  | [] => rfl
  | [l] => by simp [pairUp, sumOf, parent, emptyLeaf]
  | l :: r :: rest => by
    simp only [pairUp, sumOf_cons, pairUp_sum rest, parent]
    ring

/-- `generate` always returns the bottom level first. -/
theorem generateLevels_cons : ∀ (fuel : Nat) (c : List MerkleTreeNode),
    ∃ tl, generateLevels fuel c = c :: tl
  | 0, c => ⟨[], rfl⟩
  | fuel + 1, c => by
    by_cases h : c.length ≤ 1
    · exact ⟨[], by simp [generateLevels, h]⟩
    · obtain ⟨tl, htl⟩ := generateLevels_cons fuel (pairUp c)
      exact ⟨generateLevels fuel (pairUp c), by simp [generateLevels, h]⟩

/-- With enough fuel, each level of `generate` after the first has
`ceil(previous / 2)` nodes. -/
theorem generateLevels_chain : ∀ (fuel : Nat) (c : List MerkleTreeNode),
    c.length ≤ fuel + 1 →
    ∀ i, i + 1 < (generateLevels fuel c).length →
      ((generateLevels fuel c).getD (i + 1) []).length =
        (((generateLevels fuel c).getD i []).length + 1) / 2
  | 0, c, _, i, hi => by simp [generateLevels] at hi
  | fuel + 1, c, hc, i, hi => by
    by_cases h : c.length ≤ 1
    · simp [generateLevels, h] at hi
    · have hrec : (pairUp c).length ≤ fuel + 1 := by
        rw [pairUp_length]; omega
      rw [generateLevels, if_neg h] at hi ⊢
      cases i with
      | zero =>
        obtain ⟨tl, htl⟩ := generateLevels_cons fuel (pairUp c)
        simp [htl, pairUp_length]
      | succ i =>
        have := generateLevels_chain fuel (pairUp c) hrec i (by simpa using hi)
        simpa using this

/-- With enough fuel and a non-empty bottom level, the topmost level of
`generate` is a single node carrying the bottom level's total sum. -/
theorem generateLevels_last : ∀ (fuel : Nat) (c : List MerkleTreeNode),
    c.length ≤ fuel + 1 → c ≠ [] →
    ∃ x, lastLevelOf (generateLevels fuel c) = [x] ∧ x.sum = sumOf c
  | 0, c, hc, hne => by
    match c, hc, hne with
    | [x], _, _ => exact ⟨x, by simp [generateLevels, lastLevelOf], by simp [sumOf]⟩
  | fuel + 1, c, hc, hne => by
    by_cases h : c.length ≤ 1
    · match c, h, hne with
      | [x], _, _ =>
        exact ⟨x, by simp [generateLevels, lastLevelOf], by simp [sumOf]⟩
    · rw [generateLevels, if_neg h]
      have hrec : (pairUp c).length ≤ fuel + 1 := by rw [pairUp_length]; omega
      obtain ⟨x, hx, hsum⟩ :=
        generateLevels_last fuel (pairUp c) hrec (pairUp_ne_nil c (by intro hnil; simp [hnil] at h))
      refine ⟨x, ?_, by rw [hsum, pairUp_sum]⟩
      obtain ⟨tl, htl⟩ := generateLevels_cons fuel (pairUp c)
      have hlen : 1 ≤ (generateLevels fuel (pairUp c)).length := by simp [htl]
      have hstep : lastLevelOf (c :: generateLevels fuel (pairUp c)) =
          lastLevelOf (generateLevels fuel (pairUp c)) := by
        rw [lastLevelOf, lastLevelOf]
        have h1 : (c :: generateLevels fuel (pairUp c)).length - 1 =
            ((generateLevels fuel (pairUp c)).length - 1) + 1 := by
          simp only [List.length_cons]
          omega
        rw [h1, List.getD_cons_succ]
      rw [hstep, hx]

/-- Telescoping sum of consecutive differences. -/
theorem sum_range_sub (f : Nat → Int) : ∀ m : Nat,
    (((List.range m).map fun j => f (j + 1) - f j).sum) = f m - f 0
  | 0 => by simp
  | m + 1 => by
    rw [List.range_succ]
    simp only [List.map_append, List.sum_append, sum_range_sub f m]
    simp

theorem parseLeaves_ne_nil (ls : List PTransfer) (b : List MerkleTreeNode)
    (h : parseLeaves ls = some b) : b ≠ [] := by
  rw [parseLeaves.eq_def] at h
  by_cases h1 : ls.length = 1
  · rw [if_pos h1] at h
    cases h
    simp
  · rw [if_neg h1] at h
    match ls, h with
    | l0 :: l1 :: rest, h =>
      cases h
      simp

/-- The interior sums telescope: the whole bottom level built by
`parseLeaves` always carries the full coordinate range. -/
theorem parseLeaves_sum (ls : List PTransfer) (b : List MerkleTreeNode)
    (h : parseLeaves ls = some b) : sumOf b = MAX_COIN_ID - MIN_COIN_ID := by
  rw [parseLeaves.eq_def] at h
  by_cases h1 : ls.length = 1
  · rw [if_pos h1] at h
    cases h
    simp [sumOf, MIN_COIN_ID]
  · rw [if_neg h1] at h
    match ls, h with
    | l0 :: l1 :: rest, h =>
      cases h
      have hn : 2 ≤ (l0 :: l1 :: rest).length := by simp
      have hint : sumOf (interiorNodes (l0 :: l1 :: rest)) =
          startAt (l0 :: l1 :: rest) ((l0 :: l1 :: rest).length - 1) -
            startAt (l0 :: l1 :: rest) 1 := by
        rw [interiorNodes, sumOf]
        rw [List.map_map]
        have hcomp :
            ((fun x : MerkleTreeNode => x.sum) ∘ fun j =>
              MerkleTreeNode.mk
                (Digest.leafH (((l0 :: l1 :: rest).getD (j + 1) default).encoded))
                ((((l0 :: l1 :: rest).getD (j + 2) default).start : Int) -
                  ((l0 :: l1 :: rest).getD (j + 1) default).start)) =
            fun j => startAt (l0 :: l1 :: rest) (j + 1 + 1) -
              startAt (l0 :: l1 :: rest) (j + 1) := by
          funext j
          simp [startAt]
        rw [hcomp]
        have := sum_range_sub (fun j => startAt (l0 :: l1 :: rest) (j + 1))
          ((l0 :: l1 :: rest).length - 2)
        simp only at this
        rw [this]
        have h2 : (l0 :: l1 :: rest).length - 2 + 1 = (l0 :: l1 :: rest).length - 1 := by
          simp only [List.length_cons]
          omega
        rw [h2]
      rw [sumOf_cons, sumOf_append, hint]
      have hl1 : startAt (l0 :: l1 :: rest) 1 = (l1.start : Int) := by
        simp [startAt]
      have hlast : sumOf [MerkleTreeNode.mk
          (Digest.leafH (((l0 :: l1 :: rest).getD ((l0 :: l1 :: rest).length - 1) default).encoded))
          (MAX_COIN_ID -
            ((l0 :: l1 :: rest).getD ((l0 :: l1 :: rest).length - 1) default).start)] =
          MAX_COIN_ID - startAt (l0 :: l1 :: rest) ((l0 :: l1 :: rest).length - 1) := by
        simp [sumOf, startAt]
      rw [hlast, hl1]
      ring

/-- The `every` fold of `checkTransactionProof` yields `some true` exactly
when every element checks to `some true` at its own index (offset by the
starting index `k`). -/
theorem checkEvery_iff (transaction : Transaction) (rt : MerkleTreeNode) :
    ∀ (l : List TransferProof) (k : Nat),
      checkEvery transaction rt l k = some true ↔
      ∀ j, j < l.length →
        checkTransferProof transaction (k + j) (l.getD j default) rt = some true
  | [], k => by simp [checkEvery]
  | tp :: rest, k => by
    rcases hc : checkTransferProof transaction k tp rt with _ | b
    · constructor
      · intro h
        rw [checkEvery, hc] at h
        cases h
      · intro hall
        have h0 := hall 0 (by simp)
        rw [Nat.add_zero] at h0
        simp only [List.getD_cons_zero] at h0
        rw [hc] at h0
        cases h0
    · cases b
      · constructor
        · intro h
          rw [checkEvery, hc] at h
          cases h
        · intro hall
          have h0 := hall 0 (by simp)
          rw [Nat.add_zero] at h0
          simp only [List.getD_cons_zero] at h0
          rw [hc] at h0
          cases h0
      · rw [checkEvery, hc]
        rw [checkEvery_iff transaction rt rest (k + 1)]
        constructor
        · intro h j hj
          cases j with
          | zero =>
            rw [Nat.add_zero]
            simpa using hc
          | succ j =>
            have hj2 : j < rest.length := by simpa using hj
            have := h j hj2
            have harith : k + (j + 1) = k + 1 + j := by omega
            rw [harith]
            simpa using this
        · intro hall j hj
          have := hall (j + 1) (by simpa using hj)
          have harith : k + (j + 1) = k + 1 + j := by omega
          rw [harith] at this
          simpa using this

theorem interiorNodes_length (ls : List PTransfer) :
    (interiorNodes ls).length = ls.length - 2 := by
  simp [interiorNodes]

theorem interiorNodes_getElem (ls : List PTransfer) (j : Nat)
    (hj : j < ls.length - 2) :
    (interiorNodes ls)[j]? =
      some ⟨Digest.leafH ((ls.getD (j + 1) default).encoded),
            startAt ls (j + 2) - startAt ls (j + 1)⟩ := by
  rw [interiorNodes, List.getElem?_map, List.getElem?_range hj]
  simp [startAt]

/-! ## Claims -/

/-- Claim C1 (refuted by the code, demonstrating the bug): the claim says
that for every non-empty transaction list and every valid leaf index,
`getTransferProof(i)` followed by `checkTransferProof` against the tree's
own root returns `true`.  On the three-leaf tree `T3` the round trip does
hold at index 0, but at the valid index 2 (whose level-0 sibling slot does
not exist) the generated proof contains a JavaScript `undefined` sibling
entry, and `checkTransferProof` then throws a `TypeError`
(`undefined.slice`) instead of returning `true`. -/
theorem getTransferProof_roundtrip_breaks_on_missing_sibling :
    checkTransferProof (txs3.getD 0 default) 0
      ((getTransferProof T3 0).getD default) ((root T3).getD default) =
      some true ∧
    getTransferProof T3 2 ≠ none ∧
    checkTransferProof (txs3.getD 2 default) 0
      ((getTransferProof T3 2).getD default) ((root T3).getD default) =
      none := by
  decide

/-- Claim C2 (refuted by the code, demonstrating the bug): the claim says
`checkTransferProof` accumulates each sibling's sum into `rightSum` (path
bit 0) or `leftSum` (path bit 1) and then requires
`transfer.start >= leftSum` and `transfer.end <= rootSum - rightSum`.  In
the source, `leftSum.add(...)` and `rightSum.add(...)` discard the bn.js
results, so both accumulators stay 0: on a proof whose single left sibling
carries sum 5 while the transfer starts at 2, the code returns `true`,
whereas the claimed semantics (the accumulating `checkTransferProofSpec`)
returns `false` because `2 >= 5` fails. -/
theorem checkTransferProof_sums_never_accumulate :
    checkTransferProof txC2 0 prfC2 rootC2 = some true ∧
    checkTransferProofSpec txC2 0 prfC2 rootC2 = some false := by
  decide

/-- Claim C6 (refuted by the code, demonstrating the bug): the claim says
`parseLeaves` orders the leaves ascending by exact `start` even for
128-bit values.  The comparator `(a, b) => a.start - b.start` coerces the
bn.js values to IEEE-754 doubles, so the distinct starts `2^53 + 1` and
`2^53` compare equal and keep their original (descending) order: the
sorted transfer list is not ascending by `start`. -/
theorem sort_not_ascending_for_large_starts :
    (sortedTransfers cexTxs).map (·.start) = [2 ^ 53 + 1, 2 ^ 53] ∧
    ¬ List.Pairwise (fun a b => a.start ≤ b.start) (sortedTransfers cexTxs) := by
  decide

/-- Claim C7 (refuted by the code, demonstrating the bug): the claim says
a missing sibling slot is substituted by the empty sentinel (all-zero
digest, sum 0).  On the three-leaf tree `T3` at index 2 the level-0
sibling slot is missing, and both proof generators emit a JavaScript
`undefined` entry (`none`) in its place — the source assigns
`emptyLeaf().data` (a string) to `node` and then pushes `node.data`, which
is `undefined` — rather than the sentinel's 48-byte record. -/
theorem missing_sibling_gives_undefined_not_sentinel :
    ((getTransferProof T3 2).getD default).inclusionProof =
      [none, some ⟨Digest.nodeH (Digest.leafH "e0") 6 (Digest.leafH "e1") 94, 100⟩] ∧
    getInclusionProof T3 2 =
      some [some ⟨Digest.zero, MAX_COIN_ID - 100⟩,
            none,
            some ⟨Digest.nodeH (Digest.leafH "e0") 6 (Digest.leafH "e1") 94, 100⟩] := by
  decide

/-- Claim C4, counterexample: the claim says the parent digest is
`H(left.digest || right.digest)`, i.e. a function of the two child digests
alone.  Two pairs of children with identical digests but different sums
produce different parent digests, so no such function exists: the hash
input also contains the child sums. -/
theorem parent_digest_not_function_of_digests :
    (MerkleTreeNode.mk Digest.zero 0).digest =
      (MerkleTreeNode.mk Digest.zero 1).digest ∧
    (parent ⟨Digest.zero, 0⟩ ⟨Digest.zero, 0⟩).digest ≠
      (parent ⟨Digest.zero, 1⟩ ⟨Digest.zero, 0⟩).digest := by
  decide

/-- Claim C4 as amended: `combine(left, right)` produces a node whose
digest is the hash of the concatenation of the two children's full 48-byte
`data` records (digest and sum of each child) — so, with the hash
collision-free, two parents share a digest exactly when the child records
coincide — and whose sum is `left.sum + right.sum`; it is a total pure
function. -/
theorem parent_combines_full_child_records (l r l2 r2 : MerkleTreeNode) :
    ((parent l r).digest = (parent l2 r2).digest ↔ (l = l2 ∧ r = r2)) ∧
    (parent l r).sum = l.sum + r.sum := by
  refine ⟨⟨?_, ?_⟩, rfl⟩
  · intro hd
    cases l; cases r; cases l2; cases r2
    simp only [parent, Digest.nodeH.injEq] at hd
    simp_all
  · rintro ⟨rfl, rfl⟩
    rfl

/-- Witness for the amended claim C4 at concrete nodes. -/
theorem parent_combines_full_child_records_witness :
    ((parent ⟨Digest.zero, 1⟩ emptyLeaf).digest =
        (parent ⟨Digest.zero, 1⟩ emptyLeaf).digest ↔
      ((⟨Digest.zero, 1⟩ : MerkleTreeNode) = ⟨Digest.zero, 1⟩ ∧
        emptyLeaf = emptyLeaf)) ∧
    (parent ⟨Digest.zero, 1⟩ emptyLeaf).sum =
      (⟨Digest.zero, 1⟩ : MerkleTreeNode).sum + emptyLeaf.sum :=
  parent_combines_full_child_records ⟨Digest.zero, 1⟩ emptyLeaf
    ⟨Digest.zero, 1⟩ emptyLeaf

/-- Claim C3: `parseLeaves` assigns leaf sums by the boundary rule — a
single leaf gets `MAX_COIN_ID`; with `n > 1` leaves, the first gets
`leaves[1].start - MIN_COIN_ID`, the last
`MAX_COIN_ID - leaves[n-1].start`, and an interior leaf `i` gets
`leaves[i+1].start - leaves[i].start` — and every leaf's digest is the
hash of its source transaction's encoded payload. -/
theorem parseLeaves_boundary_rule (ls : List PTransfer)
    (parsed : List MerkleTreeNode) (h : parseLeaves ls = some parsed) :
    (ls.length = 1 →
      parsed = [⟨Digest.leafH ((ls.getD 0 default).encoded), MAX_COIN_ID⟩]) ∧
    (2 ≤ ls.length →
      parsed.length = ls.length ∧
      parsed[0]? = some ⟨Digest.leafH ((ls.getD 0 default).encoded),
        startAt ls 1 - MIN_COIN_ID⟩ ∧
      parsed[ls.length - 1]? =
        some ⟨Digest.leafH ((ls.getD (ls.length - 1) default).encoded),
          MAX_COIN_ID - startAt ls (ls.length - 1)⟩ ∧
      (∀ i, 0 < i → i < ls.length - 1 →
        parsed[i]? = some ⟨Digest.leafH ((ls.getD i default).encoded),
          startAt ls (i + 1) - startAt ls i⟩)) := by
  rw [parseLeaves.eq_def] at h
  by_cases h1 : ls.length = 1
  · rw [if_pos h1] at h
    cases h
    exact ⟨fun _ => rfl, fun h2 => by omega⟩
  · rw [if_neg h1] at h
    match ls, h with
    | l0 :: l1 :: rest, h =>
      cases h
      refine ⟨fun hlen => by simp at hlen, fun _ => ?_⟩
      have hlen : (l0 :: l1 :: rest).length = rest.length + 2 := by simp
      refine ⟨?_, ?_, ?_, ?_⟩
      · simp only [List.length_cons, List.length_append, List.length_nil,
          interiorNodes_length]
        omega
      · simp [startAt]
      · have hidx : (l0 :: l1 :: rest).length - 1 =
            ((l0 :: l1 :: rest).length - 2) + 1 := by omega
        rw [hidx, List.getElem?_cons_succ,
          List.getElem?_append_right (by simp [interiorNodes_length])]
        simp [interiorNodes_length, startAt]
      · intro i hi0 hin
        have hidx : i = (i - 1) + 1 := by omega
        rw [hidx, List.getElem?_cons_succ]
        have hlt : i - 1 < (interiorNodes (l0 :: l1 :: rest)).length := by
          rw [interiorNodes_length]
          omega
        rw [List.getElem?_append, if_pos hlt,
          interiorNodes_getElem _ _ (by rw [interiorNodes_length] at hlt; omega)]

/-- Witness for claim C3 on a concrete three-transfer list. -/
theorem parseLeaves_boundary_rule_witness :
    parseLeaves ls3w = some parsed3w ∧
    ((ls3w.length = 1 →
      parsed3w = [⟨Digest.leafH ((ls3w.getD 0 default).encoded), MAX_COIN_ID⟩]) ∧
    (2 ≤ ls3w.length →
      parsed3w.length = ls3w.length ∧
      parsed3w[0]? = some ⟨Digest.leafH ((ls3w.getD 0 default).encoded),
        startAt ls3w 1 - MIN_COIN_ID⟩ ∧
      parsed3w[ls3w.length - 1]? =
        some ⟨Digest.leafH ((ls3w.getD (ls3w.length - 1) default).encoded),
          MAX_COIN_ID - startAt ls3w (ls3w.length - 1)⟩ ∧
      (∀ i, 0 < i → i < ls3w.length - 1 →
        parsed3w[i]? = some ⟨Digest.leafH ((ls3w.getD i default).encoded),
          startAt ls3w (i + 1) - startAt ls3w i⟩))) :=
  ⟨by decide, parseLeaves_boundary_rule ls3w parsed3w (by decide)⟩

/-- Claim C5: after construction, `levels[0]` is exactly the parsed leaf
list, every subsequent level has `ceil(previous / 2)` nodes, and the
topmost level has exactly one node; for the empty input the tree is a
single empty level and `root()` yields no value rather than an error. -/
theorem levels_shape_invariant (txs : List Transaction) (t : MerkleSumTree)
    (h : mkPlasmaTree (some txs) = some t) :
    (∃ bottom, parseLeaves (sortedTransfers txs) = some bottom ∧
      t.levels[0]? = some bottom ∧
      (t.levels.getD 0 []).length = bottom.length) ∧
    (∀ i, i + 1 < t.levels.length →
      (t.levels.getD (i + 1) []).length =
        ((t.levels.getD i []).length + 1) / 2) ∧
    (lastLevelOf t.levels).length = 1 ∧
    mkPlasmaTree none = some ⟨[], [[]]⟩ ∧
    root ⟨[], [[]]⟩ = none := by
  rw [mkPlasmaTree] at h
  cases hb : parseLeaves (sortedTransfers txs) with
  | none => rw [hb] at h; cases h
  | some bottom =>
    rw [hb, Option.map_some'] at h
    cases h
    obtain ⟨tl, htl⟩ := generateLevels_cons bottom.length bottom
    have hfuel : bottom.length ≤ bottom.length + 1 := by omega
    have hne : bottom ≠ [] := parseLeaves_ne_nil _ _ hb
    refine ⟨⟨bottom, rfl, ?_, ?_⟩, ?_, ?_, rfl, rfl⟩
    · show (generate bottom)[0]? = some bottom
      rw [generate, htl]
      simp
    · show ((generate bottom).getD 0 []).length = bottom.length
      rw [generate, htl]
      rfl
    · exact generateLevels_chain bottom.length bottom hfuel
    · obtain ⟨x, hx, _⟩ := generateLevels_last bottom.length bottom hfuel hne
      show (lastLevelOf (generate bottom)).length = 1
      rw [generate, hx]
      rfl

/-- Witness for claim C5 on a concrete two-transaction tree. -/
theorem levels_shape_invariant_witness :
    mkPlasmaTree (some txs2w) = some T2w ∧
    ((∃ bottom, parseLeaves (sortedTransfers txs2w) = some bottom ∧
      T2w.levels[0]? = some bottom ∧
      (T2w.levels.getD 0 []).length = bottom.length) ∧
    (∀ i, i + 1 < T2w.levels.length →
      (T2w.levels.getD (i + 1) []).length =
        ((T2w.levels.getD i []).length + 1) / 2) ∧
    (lastLevelOf T2w.levels).length = 1 ∧
    mkPlasmaTree none = some ⟨[], [[]]⟩ ∧
    root ⟨[], [[]]⟩ = none) :=
  ⟨by decide, levels_shape_invariant txs2w T2w (by decide)⟩

/-- Claim C8: `getInclusionProof` and `getTransferProof` fail with the
invalid-index error exactly when the index is negative or at least
`levels[0].length`; a returned transfer proof records the requested index
itself (no clamping); on the tree built with no leaves every request
fails. -/
theorem proof_requests_error_iff_index_out_of_range (t : MerkleSumTree)
    (i : Int) :
    (getTransferProof t i = none ↔
      (i < 0 ∨ ((t.levels.getD 0 []).length : Int) ≤ i)) ∧
    (getInclusionProof t i = none ↔
      (i < 0 ∨ ((t.levels.getD 0 []).length : Int) ≤ i)) ∧
    (∀ p, getTransferProof t i = some p → (p.leafIndex : Int) = i) ∧
    (∀ j : Int, getTransferProof ⟨[], [[]]⟩ j = none ∧
      getInclusionProof ⟨[], [[]]⟩ j = none) := by
  by_cases hcond : ((t.levels.getD 0 []).length : Int) ≤ i ∨ i < 0
  · refine ⟨?_, ?_, ?_, ?_⟩
    · simp only [getTransferProof, if_pos hcond]
      constructor
      · intro _
        tauto
      · intro _
        trivial
    · simp only [getInclusionProof, if_pos hcond]
      constructor
      · intro _
        tauto
      · intro _
        trivial
    · intro p hp
      simp only [getTransferProof, if_pos hcond] at hp
      cases hp
    · intro j
      constructor
      · simp only [getTransferProof]
        rw [if_pos]
        simp
        omega
      · simp only [getInclusionProof]
        rw [if_pos]
        simp
        omega
  · refine ⟨?_, ?_, ?_, ?_⟩
    · simp only [getTransferProof, if_neg hcond]
      constructor
      · intro hx
        cases hx
      · intro hx
        exact absurd (by tauto) hcond
    · simp only [getInclusionProof, if_neg hcond]
      constructor
      · intro hx
        cases hx
      · intro hx
        exact absurd (by tauto) hcond
    · intro p hp
      simp only [getTransferProof, if_neg hcond] at hp
      cases hp
      show ((i.toNat : Nat) : Int) = i
      push_neg at hcond
      exact Int.toNat_of_nonneg (by omega)
    · intro j
      constructor
      · simp only [getTransferProof]
        rw [if_pos]
        simp
        omega
      · simp only [getInclusionProof]
        rw [if_pos]
        simp
        omega

/-- Witness for claim C8 at the empty tree and the negative index -1. -/
theorem proof_requests_error_iff_witness :
    (getTransferProof ⟨[], [[]]⟩ (-1) = none ↔
      ((-1 : Int) < 0 ∨
        (((⟨[], [[]]⟩ : MerkleSumTree).levels.getD 0 []).length : Int) ≤ -1)) ∧
    (getInclusionProof ⟨[], [[]]⟩ (-1) = none ↔
      ((-1 : Int) < 0 ∨
        (((⟨[], [[]]⟩ : MerkleSumTree).levels.getD 0 []).length : Int) ≤ -1)) ∧
    (∀ p, getTransferProof ⟨[], [[]]⟩ (-1) = some p →
      (p.leafIndex : Int) = -1) ∧
    (∀ j : Int, getTransferProof ⟨[], [[]]⟩ j = none ∧
      getInclusionProof ⟨[], [[]]⟩ j = none) :=
  proof_requests_error_iff_index_out_of_range ⟨[], [[]]⟩ (-1)

/-- Claim C9: `checkTransactionProof` returns `true` exactly when every
transfer-level proof it contains, checked against the same transaction and
root at its own index, returns `true`. -/
theorem checkTransactionProof_iff_all_transfer_proofs
    (transaction : Transaction) (prfs : List TransferProof)
    (rt : MerkleTreeNode) :
    checkTransactionProof transaction ⟨prfs⟩ rt = some true ↔
    ∀ j, j < prfs.length →
      checkTransferProof transaction j (prfs.getD j default) rt = some true := by
  rw [checkTransactionProof]
  have := checkEvery_iff transaction rt prfs 0
  simpa using this

/-- Witness for claim C9: a proof with no transfer proofs verifies. -/
theorem checkTransactionProof_iff_witness :
    checkTransactionProof txC2 ⟨[]⟩ rootC2 = some true :=
  (checkTransactionProof_iff_all_transfer_proofs txC2 [] rootC2).mpr
    (fun j hj => absurd hj (by simp))

/-- Claim C10: the root of every successfully constructed tree carries sum
`MAX_COIN_ID - MIN_COIN_ID` — the boundary and interior leaf sums
telescope to the full coordinate range and pairing passes (including the
sentinel padding) preserve the total. -/
theorem root_sum_is_full_range (txs : List Transaction) (t : MerkleSumTree)
    (h : mkPlasmaTree (some txs) = some t) :
    (root t).map (·.sum) = some (MAX_COIN_ID - MIN_COIN_ID) := by
  rw [mkPlasmaTree] at h
  cases hb : parseLeaves (sortedTransfers txs) with
  | none => rw [hb] at h; cases h
  | some bottom =>
    rw [hb, Option.map_some'] at h
    cases h
    have hfuel : bottom.length ≤ bottom.length + 1 := by omega
    have hne : bottom ≠ [] := parseLeaves_ne_nil _ _ hb
    obtain ⟨x, hx, hsum⟩ := generateLevels_last bottom.length bottom hfuel hne
    show ((lastLevelOf (generate bottom)).get? 0).map (·.sum) = _
    rw [generate, hx]
    have hget : ([x].get? 0) = some x := rfl
    rw [hget, Option.map_some', hsum, parseLeaves_sum _ _ hb]

/-- Witness for claim C10 on a concrete single-transaction tree. -/
theorem root_sum_is_full_range_witness :
    mkPlasmaTree (some txs1) = some T1 ∧
    (root T1).map (·.sum) = some (MAX_COIN_ID - MIN_COIN_ID) :=
  ⟨by decide, root_sum_is_full_range txs1 T1 (by decide)⟩

end PlasmaUtils
